import Mathlib

/-!
Verification of the core pipeline of `src/main.py` (resume parser and
job-matching portal): `load_skill_set`, `parse_resume`,
`parse_job_description` and `match_candidates`.

Modelling conventions:
* Python text is modelled as `String` / `List Char`; only the ASCII
  behaviour of `str.lower`, `str.strip`, `str.title` and of the regex
  classes `\w`, `\d`, `\s` is modelled (all inputs of interest are ASCII).
* Python floats produced by `len(intersect) / len(req_skills)` are modelled
  as rationals; for these small fractions the order and the constants 0.0
  and 1.0 agree with IEEE semantics.
* `list.sort(key=..., reverse=True)` is a stable sort placing larger keys
  first; it is modelled by `List.insertionSort` (also a stable sort) with
  the relation `scoreGE`, and `sorted(...)` by `List.insertionSort` with
  the code-point string order; a stable sort is uniquely determined by the
  key preorder, so the choice of algorithm is immaterial.
* The file read in `load_skill_set` is modelled as an explicit stream of
  events: each successfully read line, or an I/O error raised mid-read;
  a missing file is the `none` case (the `open` call itself raises).
-/

namespace ResumePortal

/-- ASCII model of the whitespace class used by Python `str.strip` and the
regex class `\s`: space, tab, newline, carriage return, vertical tab and
form feed. -/
def isPySpace (c : Char) : Bool :=
  c == ' ' || c == '\t' || c == '\n' || c == '\r' || c.toNat == 11 || c.toNat == 12

/-- Python `str.strip()`: drop leading and trailing whitespace. -/
def pyStrip (l : List Char) : List Char :=
  ((l.dropWhile isPySpace).reverse.dropWhile isPySpace).reverse

/-- Split a character list at newline characters (model of
`str.splitlines()`; the parsers immediately strip each line and drop blank
lines, so the treatment of a trailing newline does not matter). -/
def splitlines : List Char → List (List Char)
  | [] => [[]]
  | c :: rest =>
    if c == '\n' then [] :: splitlines rest
    else
      match splitlines rest with
      | [] => [c :: []]
      | l :: ls => (c :: l) :: ls

/-- Regex word character `\w` (ASCII): letter, digit or underscore. -/
def isWordChar (c : Char) : Bool := c.isAlphanum || c == '_'

/-- Whether position `i` of `t` holds a word character (out of range counts
as a non-word position, as at the ends of the string for `\b`). -/
def wordAt (t : List Char) (i : Nat) : Bool :=
  match t.get? i with
  | some c => isWordChar c
  | none => false

/-- The regex word boundary `\b` holds at position `i` of `t` when exactly
one of the character before `i` and the character at `i` is a word
character. -/
def boundaryAt (t : List Char) (i : Nat) : Bool :=
  (decide (i ≠ 0) && wordAt t (i - 1)) != wordAt t i

/-- A match of the pattern `\b p \b` (with `p` a literal, as produced by
`re.escape`) starting at position `i` of `t`. -/
def wbMatchAt (p t : List Char) (i : Nat) : Bool :=
  p.isPrefixOf (t.drop i) && boundaryAt t i && boundaryAt t (i + p.length)

/-- `re.search` of the pattern `\b p \b` in `t`: some starting position
(including the end-of-string position) admits a match. -/
def wbSearch (p t : List Char) : Bool :=
  (List.range (t.length + 1)).any (wbMatchAt p t)

/-- One step of Python `str.title()`: a cased (here: ASCII alphabetic)
character is uppercased after a non-cased character and lowercased after a
cased one. -/
def pyTitleAux : List Char → Bool → List Char
  | [], _ => []
  | c :: cs, prevCased =>
    (if prevCased then c.toLower else c.toUpper) :: pyTitleAux cs c.isAlpha

/-- Python `str.title()`. -/
def pyTitle (s : String) : String := String.mk (pyTitleAux s.data false)

/-- Lexicographic comparison of character lists by code point: the order
Python uses to compare strings in `sorted`. -/
def lexLeChars : List Char → List Char → Bool
  | [], _ => true
  | _ :: _, [] => false
  | a :: as, b :: bs =>
    if a.toNat < b.toNat then true
    else if b.toNat < a.toNat then false
    else lexLeChars as bs

/-- Python string order (code-point lexicographic). -/
def pyLe (a b : String) : Prop := lexLeChars a.data b.data = true

instance : DecidableRel pyLe := fun a b =>
  inferInstanceAs (Decidable (lexLeChars a.data b.data = true))

/-- The skill scan shared by `parse_resume` and `parse_job_description`:
every vocabulary entry found in the lowercased text as a whole word is
title-cased and collected into a set, which is returned sorted (the Python
code builds a `set` and returns `sorted(list(...))`). -/
def find_skills (skillsSet : List String) (text : String) : List String :=
  let lower_text := text.data.map Char.toLower
  let skills_found :=
    ((skillsSet.filter fun skill => wbSearch skill.data lower_text).map pyTitle).dedup
  skills_found.insertionSort pyLe

/-! ### A small regex engine for the email and phone patterns

Python `re` uses leftmost-first, greedy backtracking semantics.  The two
patterns of `parse_resume` that are not plain literals are encoded in a
tiny regex language (character class, concatenation, ordered alternation
and greedy star) and run by a continuation-passing backtracking matcher.
The `fuel` argument only bounds the number of star unfoldings; every star
in the encoded patterns has a single character class as body, so it
consumes a character per iteration and `length + 1` fuel is never
exhausted before the body fails. -/

inductive RE where
  | eps : RE
  | cls (p : Char → Bool) : RE
  | seq (a b : RE) : RE
  | alt (a b : RE) : RE
  | star (a : RE) : RE

/-- Backtracking matcher: try to match `re` against the front of `s`,
passing each candidate remainder to the continuation `k` in priority
order (greedy: a star first tries to consume more; an alternation tries
its left branch first), returning the first success.  The recursion is
structural on `fuel`, decremented at every step so that the kernel can
evaluate the matcher; see `reFuel` for why it never runs out. -/
def reRun : Nat → RE → List Char → (List Char → Option (List Char)) → Option (List Char)
  | 0, _, _, _ => none
  | _ + 1, .eps, s, k => k s
  | _ + 1, .cls _, [], _ => none
  | _ + 1, .cls p, c :: rest, k => if p c then k rest else none
  | fuel + 1, .seq a b, s, k => reRun fuel a s fun s1 => reRun fuel b s1 k
  | fuel + 1, .alt a b, s, k => (reRun fuel a s k).orElse fun _ => reRun fuel b s k
  | fuel + 1, .star a, s, k =>
    (reRun fuel a s fun s1 => reRun fuel (.star a) s1 k).orElse fun _ => k s

/-- Number of nodes of a pattern. -/
def reSize : RE → Nat
  | .eps => 1
  | .cls _ => 1
  | .seq a b => reSize a + reSize b + 1
  | .alt a b => reSize a + reSize b + 1
  | .star a => reSize a + 1

/-- Fuel for `reRun`: each recursion step either descends into a strict
subterm of the pattern or unfolds a star, and every star in the encoded
patterns has a single character class as body, so it advances the input
position at each unfolding; the product bounds the depth of any chain of
recursive calls with a wide margin. -/
def reFuel (re : RE) (s : List Char) : Nat := (reSize re + 2) * (s.length + 2)

/-- Scan of `re.search`: try each start position from the left (including
the end-of-string position); on the first success return the start index
and the length of the (greedily chosen) match. -/
def reSearchAux (re : RE) : Nat → List Char → Option (Nat × Nat)
  | i, s =>
    match reRun (reFuel re s) re s some with
    | some rem => some (i, s.length - rem.length)
    | none =>
      match s with
      | [] => none
      | _ :: rest => reSearchAux re (i + 1) rest

/-- `re.search` over a character list, returning start and length of the
whole match. -/
def reSearch (re : RE) (t : List Char) : Option (Nat × Nat) := reSearchAux re 0 t

/-- `m.group(0)` of the first match, or the empty string when there is no
match (the Python code uses `""` in that case). -/
def re_group0 (re : RE) (text : String) : String :=
  match reSearch re text.data with
  | some (i, len) => String.mk ((text.data.drop i).take len)
  | none => ""

/-- A literal character. -/
def reLit (c : Char) : RE := RE.cls (· == c)

/-- Greedy `?`: try with the piece first, then without. -/
def reOpt (a : RE) : RE := RE.alt a RE.eps

/-- Greedy `+`: one copy, then a greedy star. -/
def rePlus (a : RE) : RE := RE.seq a (RE.star a)

/-- Greedy `{1,3}`: tries three copies, then two, then one. -/
def rep1to3 (a : RE) : RE := RE.seq a (reOpt (RE.seq a (reOpt a)))

/-- Exactly three copies. -/
def rep3 (a : RE) : RE := RE.seq a (RE.seq a a)

/-- Exactly four copies. -/
def rep4 (a : RE) : RE := RE.seq a (RE.seq a (RE.seq a a))

/-- The class `[A-Za-z0-9._%+-]` of the email pattern. -/
def emailLocalChar (c : Char) : Bool :=
  c.isAlphanum || c == '.' || c == '_' || c == '%' || c == '+' || c == '-'

/-- The class `[A-Za-z0-9.-]` of the email pattern. -/
def emailDomainChar (c : Char) : Bool :=
  c.isAlphanum || c == '.' || c == '-'

/-- The email pattern of `parse_resume`:
`[A-Za-z0-9._%+-]+@[A-Za-z0-9.-]+\.[A-Za-z]\x7b2,\x7d`. -/
def emailRE : RE :=
  .seq (rePlus (.cls emailLocalChar))
    (.seq (reLit '@')
      (.seq (rePlus (.cls emailDomainChar))
        (.seq (reLit '.')
          (.seq (.cls Char.isAlpha) (rePlus (.cls Char.isAlpha))))))

/-- The regex class `\d` (ASCII). -/
def digitRE : RE := .cls Char.isDigit

/-- The separator class `[\s.-]` of the phone pattern. -/
def sepRE : RE := .cls fun c => isPySpace c || c == '.' || c == '-'

/-- The phone pattern of `parse_resume`:
`(\+?\d\x7b1,3\x7d[\s.-]?)?(\(?\d\x7b3\x7d\)?[\s.-]?\d\x7b3\x7d[\s.-]?\d\x7b4\x7d)`. -/
def phoneRE : RE :=
  .seq (reOpt (.seq (reOpt (reLit '+')) (.seq (rep1to3 digitRE) (reOpt sepRE))))
    (.seq (reOpt (reLit '('))
      (.seq (rep3 digitRE)
        (.seq (reOpt (reLit ')'))
          (.seq (reOpt sepRE)
            (.seq (rep3 digitRE) (.seq (reOpt sepRE) (rep4 digitRE)))))))

/-! ### The experience section -/

/-- Case-insensitive (ASCII) test that `t` starts with the lowercase
pattern `p`. -/
def ciStartsWith : List Char → List Char → Bool
  | [], _ => true
  | _ :: _, [] => false
  | p :: ps, t :: ts => p == t.toLower && ciStartsWith ps ts

/-- The first alternative of `(?i)(experience|work experience)`. -/
def expWord : List Char := "experience".data

/-- The second alternative of `(?i)(experience|work experience)`. -/
def workExpWord : List Char := "work experience".data

/-- Leftmost match of `(?i)(experience|work experience)` scanning `t`
from position `i`; at each position the first alternative is tried first
(ordered alternation).  Returns the index just after group 1, which is
where the `(.*)` capture of group 2 starts (with `re.DOTALL` it runs to
the end of the document). -/
def findExperienceFrom : Nat → List Char → Option Nat
  | _, [] => none
  | i, t :: rest =>
    if ciStartsWith expWord (t :: rest) then some (i + expWord.length)
    else if ciStartsWith workExpWord (t :: rest) then some (i + workExpWord.length)
    else findExperienceFrom (i + 1) rest

/-! ### The parsers -/

/-- The dictionary built by `parse_resume`. -/
structure ResumeRecord where
  name : String
  email : String
  phone : String
  skills : List String
  experience : String
deriving DecidableEq, Repr, Inhabited

/-- The dictionary built by `parse_job_description`. -/
structure JobRecord where
  title : String
  skills_required : List String
  description : String
deriving DecidableEq, Repr

/-- `parse_resume` of `src/main.py`, with the module-level `SKILLS_SET`
passed explicitly. -/
def parse_resume (skillsSet : List String) (text : String) : ResumeRecord :=
  let lines := ((splitlines text.data).map pyStrip).filter (· ≠ [])
  let name := String.mk (lines.headD [])
  let email := re_group0 emailRE text
  let phone := re_group0 phoneRE text
  let skills := find_skills skillsSet text
  let experience :=
    match findExperienceFrom 0 text.data with
    | some j => String.mk ((pyStrip (text.data.drop j)).take 500)
    | none => ""
  { name := name, email := email, phone := phone, skills := skills,
    experience := experience }

/-- `parse_job_description` of `src/main.py`, with the module-level
`SKILLS_SET` passed explicitly. -/
def parse_job_description (skillsSet : List String) (text : String) : JobRecord :=
  let lines := ((splitlines text.data).map pyStrip).filter (· ≠ [])
  let title := String.mk (lines.headD "Untitled Job".data)
  { title := title, skills_required := find_skills skillsSet text,
    description := text }

/-! ### The vocabulary loader -/

/-- One event of the file read in `load_skill_set`: a line delivered by
the iterator, or an I/O error raised mid-read. -/
inductive ReadEvent where
  | line (s : String) : ReadEvent
  | ioError : ReadEvent
deriving DecidableEq, Repr

/-- The `for line in f` loop of `load_skill_set`: strip each line, skip
blank lines, store the rest lowercased.  An I/O error aborts the loop;
the surrounding `except Exception: pass` swallows it, so the skills
accumulated so far are returned. -/
def readLines : List ReadEvent → List String → List String
  | [], skills => skills
  | ReadEvent.ioError :: _, skills => skills
  | ReadEvent.line l :: rest, skills =>
    let skill := String.mk (pyStrip l.data)
    if skill ≠ "" then
      readLines rest (skills ++ [String.mk (skill.data.map Char.toLower)])
    else readLines rest skills

/-- `load_skill_set` of `src/main.py`.  `none` models a missing file (the
`open` call raises before any line is read). -/
def load_skill_set (source : Option (List ReadEvent)) : List String :=
  match source with
  | none => []
  | some events => readLines events []

/-! ### The matcher -/

/-- The per-candidate score of `match_candidates`: `0.0` for a candidate
with no skills, otherwise the fraction of the required skills the
candidate has. -/
def score (req_skills : Finset String) (candidate : ResumeRecord) : ℚ :=
  if candidate.skills.toFinset = ∅ then 0
  else
    ((req_skills ∩ candidate.skills.toFinset).card : ℚ) / (req_skills.card : ℚ)

/-- The comparison of `matches.sort(key=lambda x: x[1], reverse=True)`:
a stable sort placing pairs with the larger score first. -/
def scoreGE (a b : Nat × ℚ) : Prop := b.2 ≤ a.2

instance : DecidableRel scoreGE := fun a b => inferInstanceAs (Decidable (b.2 ≤ a.2))

instance : IsTotal (Nat × ℚ) scoreGE := ⟨fun a b => le_total b.2 a.2⟩

instance : IsTrans (Nat × ℚ) scoreGE := ⟨fun _ _ _ h1 h2 => le_trans h2 h1⟩

/-- `match_candidates` of `src/main.py`, with the module-level
`candidates` list passed explicitly: score every candidate and sort by
descending score with a stable sort (Python `list.sort` with
`reverse=True` is stable: pairs with equal scores keep their original
relative order). -/
def match_candidates (candidates : List ResumeRecord) (job : JobRecord) :
    List (Nat × ℚ) :=
  let req_skills := job.skills_required.toFinset
  if req_skills = ∅ then []
  else
    let matchList := candidates.enum.map fun p => (p.1, score req_skills p.2)
    matchList.insertionSort scoreGE

/-! ### Concrete inputs used by the scenario claims -/

/-- The vocabulary of Scenario 1 as the loader produces it from a skills
file holding the lines `Python` and `SQL`. -/
def scenario1Vocabulary : List String :=
  load_skill_set (some [ReadEvent.line "Python", ReadEvent.line "SQL"])

/-- The resume text of Scenario 1. -/
def scenario1Text : String :=
  "Jane Doe\njane@x.com\n555-123-4567\nSkills: Python, SQL, Excel\nExperience: built pipelines for 3 years."

/-- Candidate A of Scenario 3: skills Python, Sql and Excel. -/
def scenario3CandidateA : ResumeRecord :=
  { name := "A", email := "a@x.com", phone := "", skills := ["Excel", "Python", "Sql"],
    experience := "" }

/-- Candidate B of Scenario 3: single skill Python. -/
def scenario3CandidateB : ResumeRecord :=
  { name := "B", email := "b@x.com", phone := "", skills := ["Python"],
    experience := "" }

/-- The job of Scenario 3: requires Python and Sql. -/
def scenario3Job : JobRecord :=
  { title := "Data Engineer", skills_required := ["Python", "Sql"],
    description := "desc" }

end ResumePortal

namespace ResumePortal

/-! ### Helper lemmas -/

theorem wbMatchAt_nil (p : List Char) (i : Nat) : wbMatchAt p [] i = false := by
  simp [wbMatchAt, boundaryAt, wordAt]

theorem wbSearch_nil (p : List Char) : wbSearch p [] = false := by
  simp [wbSearch, wbMatchAt_nil]

theorem find_skills_empty_text (skillsSet : List String) :
    find_skills skillsSet "" = [] := by
  have h : (skillsSet.filter fun skill => wbSearch skill.data []) = [] := by
    rw [List.filter_eq_nil_iff]
    intro s _
    simp [wbSearch_nil]
  simp [find_skills, h]

theorem readLines_append_ioError (events rest : List ReadEvent)
    (acc : List String) :
    readLines (events ++ ReadEvent.ioError :: rest) acc = readLines events acc := by
  induction events generalizing acc with
  | nil => rfl
  | cons e es ih =>
    cases e with
    | ioError => rfl
    | line l =>
      simp only [List.cons_append, readLines]
      split
      · exact ih _
      · exact ih _

theorem match_candidates_eq (candidates : List ResumeRecord) (job : JobRecord)
    (h : job.skills_required.toFinset ≠ ∅) :
    match_candidates candidates job =
      (candidates.enum.map fun p =>
        (p.1, score job.skills_required.toFinset p.2)).insertionSort scoreGE := by
  simp [match_candidates, h]

theorem mem_match_candidates {candidates : List ResumeRecord} {job : JobRecord}
    {p : Nat × ℚ} (hp : p ∈ match_candidates candidates job) :
    ∃ h : p.1 < candidates.length,
      p.2 = score job.skills_required.toFinset (candidates.get ⟨p.1, h⟩) := by
  by_cases h : job.skills_required.toFinset = ∅
  · simp [match_candidates, h] at hp
  · rw [match_candidates_eq candidates job h, List.mem_insertionSort,
      List.mem_map] at hp
    obtain ⟨q, hq, rfl⟩ := hp
    rw [List.mem_enum_iff_get?, List.get?_eq_some] at hq
    obtain ⟨hlt, hget⟩ := hq
    exact ⟨hlt, by rw [hget]⟩

theorem score_nonneg (req : Finset String) (c : ResumeRecord) :
    0 ≤ score req c := by
  unfold score
  split
  · exact le_refl 0
  · exact div_nonneg (Nat.cast_nonneg _) (Nat.cast_nonneg _)

theorem score_le_one (req : Finset String) (c : ResumeRecord) :
    score req c ≤ 1 := by
  unfold score
  split
  · exact zero_le_one
  · rcases Nat.eq_zero_or_pos req.card with h0 | hpos
    · simp [h0]
    · rw [div_le_one (by exact_mod_cast hpos)]
      exact_mod_cast Finset.card_le_card Finset.inter_subset_left

theorem score_eq_one_iff (req : Finset String) (c : ResumeRecord)
    (hreq : req ≠ ∅) :
    score req c = 1 ↔ req ⊆ c.skills.toFinset := by
  have hcard : 0 < req.card :=
    Finset.card_pos.mpr (Finset.nonempty_iff_ne_empty.mpr hreq)
  unfold score
  split
  · rename_i hc
    constructor
    · intro h
      exact absurd h (by norm_num)
    · intro h
      rw [hc] at h
      exact absurd (Finset.subset_empty.mp h) hreq
  · rw [div_eq_one_iff_eq (by exact_mod_cast hcard.ne'), Nat.cast_inj]
    constructor
    · intro h
      have hsub : req ∩ c.skills.toFinset = req :=
        Finset.eq_of_subset_of_card_le Finset.inter_subset_left (le_of_eq h.symm)
      exact Finset.inter_eq_left.mp hsub
    · intro h
      rw [Finset.inter_eq_left.mpr h]

theorem score_mono (req : Finset String) {A B : ResumeRecord}
    (h : B.skills.toFinset ⊆ A.skills.toFinset) :
    score req B ≤ score req A := by
  by_cases hB : B.skills.toFinset = ∅
  · rw [score, if_pos hB]
    exact score_nonneg req A
  · have hA : ¬A.skills.toFinset = ∅ := fun hA =>
      hB (Finset.subset_empty.mp (hA ▸ h))
    rw [score, if_neg hB, score, if_neg hA]
    rcases Nat.eq_zero_or_pos req.card with h0 | hpos
    · simp [h0]
    · rw [div_le_div_iff_of_pos_right (by exact_mod_cast hpos)]
      exact_mod_cast Finset.card_le_card
        (Finset.inter_subset_inter (le_refl req) h)

theorem pair_get_sublist {α : Type} {l : List α} (i j : Fin l.length)
    (hij : i.1 < j.1) :
    List.Sublist [l.get i, l.get j] l := by
  have h1 : l.get i :: l.drop (i.1 + 1) = l.drop i.1 := List.get_cons_drop l i
  have h2 : l.get j ∈ l.drop (i.1 + 1) := by
    rw [List.mem_iff_getElem]
    refine ⟨j.1 - (i.1 + 1), by rw [List.length_drop]; omega, ?_⟩
    rw [List.getElem_drop, List.get_eq_getElem]
    congr 1
    omega
  have h3 : List.Sublist [l.get i, l.get j] (l.drop i.1) := by
    rw [← h1]
    exact (List.singleton_sublist.mpr h2).cons₂ (l.get i)
  exact h3.trans (List.drop_sublist i.1 l)

end ResumePortal

namespace ResumePortal

/-! ### The claims -/

/-- C1: for every skill vocabulary and every document text, every element
of the skills list produced by `parse_resume` and of the skills_required
list produced by `parse_job_description` is the title-cased form of some
member of the vocabulary; no term outside the vocabulary ever appears in
either list. -/
theorem skills_from_vocabulary (skillsSet : List String) (text : String) :
    (∀ x ∈ (parse_resume skillsSet text).skills,
      ∃ s ∈ skillsSet, x = pyTitle s) ∧
    (∀ x ∈ (parse_job_description skillsSet text).skills_required,
      ∃ s ∈ skillsSet, x = pyTitle s) := by
  have key : ∀ x ∈ find_skills skillsSet text, ∃ s ∈ skillsSet, x = pyTitle s := by
    intro x hx
    unfold find_skills at hx
    rw [List.mem_insertionSort, List.mem_dedup, List.mem_map] at hx
    obtain ⟨s, hs, rfl⟩ := hx
    exact ⟨s, (List.mem_filter.mp hs).1, rfl⟩
  have hr : (parse_resume skillsSet text).skills = find_skills skillsSet text := rfl
  have hj : (parse_job_description skillsSet text).skills_required =
      find_skills skillsSet text := rfl
  rw [hr, hj]
  exact ⟨key, key⟩

theorem skills_from_vocabulary_witness :
    ∃ s ∈ ["python"], "Python" = pyTitle s :=
  (skills_from_vocabulary ["python"] "I know Python").1 "Python" (by decide)

/-- C3: for every candidate collection, a job record whose required-skills
set is empty makes `match_candidates` return the empty sequence. -/
theorem match_candidates_empty_requirements (candidates : List ResumeRecord)
    (job : JobRecord) (h : job.skills_required.toFinset = ∅) :
    match_candidates candidates job = [] := by
  simp [match_candidates, h]

theorem match_candidates_empty_requirements_witness :
    match_candidates
      [{ name := "A", email := "", phone := "", skills := ["Python"],
         experience := "" }]
      { title := "T", skills_required := [], description := "" } = [] :=
  match_candidates_empty_requirements _ _ (by decide)

/-- C6 counterexample: an I/O error raised after one line has already
been read makes `load_skill_set` return the skill accumulated so far
rather than the empty sequence, so the claim is false as stated. -/
theorem load_skill_set_midread_error_not_empty :
    load_skill_set (some [ReadEvent.line "Python", ReadEvent.ioError]) ≠ [] := by
  decide

/-- C6 amended: a missing source file yields the empty vocabulary, and an
I/O error raised before any line is read does too; an I/O error raised
mid-read makes `load_skill_set` return exactly the skills accumulated
from the lines already read (the loop is abandoned and the exception
swallowed, so no exception ever propagates). -/
theorem load_skill_set_failure_behaviour (events rest : List ReadEvent) :
    load_skill_set none = [] ∧
    load_skill_set (some (ReadEvent.ioError :: events)) = [] ∧
    load_skill_set (some (events ++ ReadEvent.ioError :: rest)) =
      load_skill_set (some events) := by
  refine ⟨rfl, rfl, ?_⟩
  unfold load_skill_set
  exact readLines_append_ioError events rest []

/-- C7 counterexample: on the Scenario 1 input the experience field does
not start with "built pipelines" (it starts with the captured ": "), so
the claimed conjunction is false. -/
theorem scenario1_claim_false :
    ¬ ((parse_resume scenario1Vocabulary scenario1Text).name = "Jane Doe" ∧
       (parse_resume scenario1Vocabulary scenario1Text).email = "jane@x.com" ∧
       (parse_resume scenario1Vocabulary scenario1Text).phone = "555-123-4567" ∧
       (parse_resume scenario1Vocabulary scenario1Text).skills = ["Python", "Sql"] ∧
       "built pipelines".data.isPrefixOf
         (parse_resume scenario1Vocabulary scenario1Text).experience.data = true) :=
  fun h => absurd h.2.2.2.2 (by decide)

/-- C7 amended: on the Scenario 1 input `parse_resume` yields
name "Jane Doe", email "jane@x.com", phone "555-123-4567",
skills ["Python", "Sql"] (Excel excluded, not in the vocabulary), and an
experience field equal to ": built pipelines for 3 years." — the capture
group after the "Experience" heading starts at the colon, so the field
starts with ": built pipelines" rather than "built pipelines". -/
theorem parse_resume_scenario1 :
    parse_resume scenario1Vocabulary scenario1Text =
      { name := "Jane Doe", email := "jane@x.com", phone := "555-123-4567",
        skills := ["Python", "Sql"],
        experience := ": built pipelines for 3 years." } := by
  decide

/-- C2: for a job with non-empty required skills, every score emitted by
`match_candidates` lies in [0, 1], and it equals 1 exactly when the
candidate possesses every required skill. -/
theorem match_candidates_score_bounds (candidates : List ResumeRecord)
    (job : JobRecord) (hreq : job.skills_required.toFinset ≠ ∅)
    (p : Nat × ℚ) (hp : p ∈ match_candidates candidates job) :
    0 ≤ p.2 ∧ p.2 ≤ 1 ∧
      (p.2 = 1 ↔
        job.skills_required.toFinset ⊆
          (candidates.getD p.1 default).skills.toFinset) := by
  obtain ⟨hlt, hscore⟩ := mem_match_candidates hp
  rw [List.getD_eq_get _ _ hlt, hscore]
  exact ⟨score_nonneg _ _, score_le_one _ _, score_eq_one_iff _ _ hreq⟩

theorem match_candidates_score_bounds_witness :
    0 ≤ ((0, (1 : ℚ)) : Nat × ℚ).2 ∧ ((0, (1 : ℚ)) : Nat × ℚ).2 ≤ 1 ∧
      (((0, (1 : ℚ)) : Nat × ℚ).2 = 1 ↔
        scenario3Job.skills_required.toFinset ⊆
          ([scenario3CandidateA, scenario3CandidateB].getD
            ((0, (1 : ℚ)) : Nat × ℚ).1 default).skills.toFinset) :=
  match_candidates_score_bounds [scenario3CandidateA, scenario3CandidateB]
    scenario3Job (by decide) (0, 1) (by with_unfolding_all decide)

/-- C4: for a fixed job with non-empty required skills, a candidate whose
skill set contains the skill set of another candidate is assigned a score
at least as large. -/
theorem match_candidates_superset_ge (candidates : List ResumeRecord)
    (job : JobRecord) (hreq : job.skills_required.toFinset ≠ ∅)
    (p q : Nat × ℚ) (hp : p ∈ match_candidates candidates job)
    (hq : q ∈ match_candidates candidates job)
    (hsub : (candidates.getD q.1 default).skills.toFinset ⊆
      (candidates.getD p.1 default).skills.toFinset) :
    q.2 ≤ p.2 := by
  obtain ⟨hpl, hps⟩ := mem_match_candidates hp
  obtain ⟨hql, hqs⟩ := mem_match_candidates hq
  rw [List.getD_eq_get _ _ hql, List.getD_eq_get _ _ hpl] at hsub
  rw [hps, hqs]
  exact score_mono _ hsub

theorem match_candidates_superset_ge_witness :
    ((1, (1 : ℚ) / 2) : Nat × ℚ).2 ≤ ((0, (1 : ℚ)) : Nat × ℚ).2 :=
  match_candidates_superset_ge [scenario3CandidateA, scenario3CandidateB]
    scenario3Job (by decide) (0, 1) (1, 1 / 2)
    (by with_unfolding_all decide) (by with_unfolding_all decide)
    (by decide)

/-- C10: for a job with non-empty required skills, `match_candidates`
returns one pair per candidate, and the candidate indices in the result
are a permutation of 0..n-1 — no candidate is dropped, including those
with score 0. -/
theorem match_candidates_complete (candidates : List ResumeRecord)
    (job : JobRecord) (hreq : job.skills_required.toFinset ≠ ∅) :
    (match_candidates candidates job).length = candidates.length ∧
    ((match_candidates candidates job).map Prod.fst).Perm
      (List.range candidates.length) := by
  rw [match_candidates_eq candidates job hreq]
  constructor
  · rw [List.length_insertionSort, List.length_map, List.enum_length]
  · refine ((List.perm_insertionSort _ _).map Prod.fst).trans ?_
    rw [List.map_map]
    have hcomp :
        (Prod.fst ∘ fun p : Nat × ResumeRecord =>
          (p.1, score job.skills_required.toFinset p.2)) = Prod.fst := rfl
    rw [hcomp, List.enum_map_fst]

theorem match_candidates_complete_witness :
    (match_candidates [scenario3CandidateA, scenario3CandidateB]
      scenario3Job).length = 2 ∧
    ((match_candidates [scenario3CandidateA, scenario3CandidateB]
      scenario3Job).map Prod.fst).Perm (List.range 2) :=
  match_candidates_complete [scenario3CandidateA, scenario3CandidateB]
    scenario3Job (by decide)

/-- C5: for a job with non-empty required skills the ranking is ordered by
descending score, and any two entries with equal scores keep the relative
order of their candidate indices, which is the insertion order of the
candidate collection. -/
theorem match_candidates_sorted_and_stable (candidates : List ResumeRecord)
    (job : JobRecord) (hreq : job.skills_required.toFinset ≠ ∅) :
    ((match_candidates candidates job).Pairwise fun a b => b.2 ≤ a.2) ∧
    ∀ (i j : Nat) (a b : Nat × ℚ), i < j →
      (match_candidates candidates job).get? i = some a →
      (match_candidates candidates job).get? j = some b →
      a.2 = b.2 → a.1 < b.1 := by
  have hout := match_candidates_eq candidates job hreq
  set req := job.skills_required.toFinset with hreqdef
  set L := candidates.enum.map fun p => (p.1, score req p.2) with hLdef
  have hLlen : L.length = candidates.length := by
    rw [hLdef, List.length_map, List.enum_length]
  have hform : ∀ {x : Nat × ℚ}, x ∈ L →
      ∃ hx : x.1 < candidates.length,
        x = (x.1, score req (candidates.get ⟨x.1, hx⟩)) := by
    intro x hx
    rw [hLdef, List.mem_map] at hx
    obtain ⟨q, hq, rfl⟩ := hx
    rw [List.mem_enum_iff_get?, List.get?_eq_some] at hq
    obtain ⟨hlt, hget⟩ := hq
    exact ⟨hlt, by rw [hget]⟩
  have hLget : ∀ (k : Nat) (hk : k < L.length),
      L.get ⟨k, hk⟩ = (k, score req (candidates.get ⟨k, hLlen ▸ hk⟩)) := by
    intro k hk
    show (candidates.enum.map fun p => (p.1, score req p.2)).get ⟨k, hk⟩ = _
    rw [List.get_map, List.get_enum]
    simp
  have hLnodup : L.Nodup := by
    have hmap : (L.map Prod.fst).Nodup := by
      rw [hLdef, List.map_map]
      have hcomp : (Prod.fst ∘ fun p : Nat × ResumeRecord =>
          (p.1, score req p.2)) = Prod.fst := rfl
      rw [hcomp]
      exact List.nodup_enum_map_fst candidates
    exact hmap.of_map
  have houtnodup : (L.insertionSort scoreGE).Nodup :=
    (List.perm_insertionSort scoreGE L).nodup_iff.mpr hLnodup
  constructor
  · rw [hout]
    exact List.sorted_insertionSort scoreGE L
  · intro i j a b hij ha hb heq
    rw [hout, List.get?_eq_some] at ha hb
    obtain ⟨hia, hgeta⟩ := ha
    obtain ⟨hjb, hgetb⟩ := hb
    have haL : a ∈ L := by
      rw [← hgeta]
      exact (List.mem_insertionSort _).mp (List.get_mem _ i hia)
    have hbL : b ∈ L := by
      rw [← hgetb]
      exact (List.mem_insertionSort _).mp (List.get_mem _ j hjb)
    obtain ⟨halt, haform⟩ := hform haL
    obtain ⟨hblt, hbform⟩ := hform hbL
    have hgetLa : L.get ⟨a.1, hLlen ▸ halt⟩ = a := by
      rw [hLget a.1 (hLlen ▸ halt)]
      exact haform.symm
    have hgetLb : L.get ⟨b.1, hLlen ▸ hblt⟩ = b := by
      rw [hLget b.1 (hLlen ▸ hblt)]
      exact hbform.symm
    rcases Nat.lt_trichotomy a.1 b.1 with hlt | heq1 | hgt
    · exact hlt
    · exfalso
      have hfin : (⟨a.1, hLlen ▸ halt⟩ : Fin L.length) = ⟨b.1, hLlen ▸ hblt⟩ :=
        Fin.ext heq1
      have hab : a = b := by
        rw [← hgetLa, ← hgetLb, hfin]
      have hijeq : (⟨i, hia⟩ : Fin (L.insertionSort scoreGE).length) = ⟨j, hjb⟩ :=
        houtnodup.get_inj_iff.mp (hgeta.trans (hab.trans hgetb.symm))
      have : i = j := congrArg Fin.val hijeq
      omega
    · exfalso
      have hsubL : List.Sublist [b, a] L := by
        have hpair := pair_get_sublist
          (⟨b.1, hLlen ▸ hblt⟩ : Fin L.length) (⟨a.1, hLlen ▸ halt⟩ : Fin L.length) hgt
        rw [hgetLa, hgetLb] at hpair
        exact hpair
      have hsubOut : List.Sublist [b, a] (L.insertionSort scoreGE) :=
        List.pair_sublist_insertionSort heq.le hsubL
      rw [List.sublist_iff_exists_fin_orderEmbedding_get_eq] at hsubOut
      obtain ⟨f, hf⟩ := hsubOut
      have h0 : (L.insertionSort scoreGE).get (f ⟨0, by simp⟩) = b :=
        (hf ⟨0, by simp⟩).symm
      have h1 : (L.insertionSort scoreGE).get (f ⟨1, by simp⟩) = a :=
        (hf ⟨1, by simp⟩).symm
      have hfe : f ⟨0, by simp⟩ < f ⟨1, by simp⟩ :=
        f.strictMono (by rw [Fin.mk_lt_mk]; omega)
      have e1 : f ⟨1, by simp⟩ = ⟨i, hia⟩ :=
        houtnodup.get_inj_iff.mp (h1.trans hgeta.symm)
      have e0 : f ⟨0, by simp⟩ = ⟨j, hjb⟩ :=
        houtnodup.get_inj_iff.mp (h0.trans hgetb.symm)
      rw [e0, e1, Fin.mk_lt_mk] at hfe
      omega

theorem match_candidates_sorted_and_stable_witness :
    ((match_candidates [scenario3CandidateB, scenario3CandidateB]
      scenario3Job).Pairwise fun a b => b.2 ≤ a.2) ∧
    ∀ (i j : Nat) (a b : Nat × ℚ), i < j →
      (match_candidates [scenario3CandidateB, scenario3CandidateB]
        scenario3Job).get? i = some a →
      (match_candidates [scenario3CandidateB, scenario3CandidateB]
        scenario3Job).get? j = some b →
      a.2 = b.2 → a.1 < b.1 :=
  match_candidates_sorted_and_stable [scenario3CandidateB, scenario3CandidateB]
    scenario3Job (by decide)

/-- C9: `parse_resume` on the empty document text returns the record with
every string field empty and no skills, for any vocabulary. -/
theorem parse_resume_empty_text (skillsSet : List String) :
    parse_resume skillsSet "" =
      { name := "", email := "", phone := "", skills := [], experience := "" } := by
  have h := find_skills_empty_text skillsSet
  have hs : (parse_resume skillsSet "").skills = find_skills skillsSet "" := rfl
  have : parse_resume skillsSet "" =
      { name := "", email := "", phone := "", skills := find_skills skillsSet "",
        experience := "" } := rfl
  rw [this, h]

end ResumePortal

namespace ResumePortal

/-! ### Whole-word matching (C8) -/

theorem toLower_eq_of_not_word (c : Char) (h : isWordChar c = false) :
    c.toLower = c := by
  have hu : c.isUpper = false := by
    revert h
    unfold isWordChar Char.isAlphanum Char.isAlpha
    cases hx : c.isUpper <;> simp
  unfold Char.toLower
  have hcond : ¬(Char.toNat c ≥ 65 ∧ Char.toNat c ≤ 90) := by
    intro ⟨h1, h2⟩
    have hz : c.isUpper = true := by
      unfold Char.isUpper
      simp only [Bool.and_eq_true, decide_eq_true_iff]
      constructor
      · show (65 : UInt32) ≤ c.val
        rw [UInt32.le_def, BitVec.le_def]
        exact h1
      · show c.val ≤ (90 : UInt32)
        rw [UInt32.le_def, BitVec.le_def]
        exact h2
    rw [hz] at hu
    exact Bool.noConfusion hu
  rw [if_neg hcond]

theorem wbSearch_delimited (p pre post : List Char) (hp : p ≠ [])
    (hfirst : ∀ c ∈ p.head?, isWordChar c = true)
    (hlast : ∀ c ∈ p.getLast?, isWordChar c = true)
    (hpre : ∀ c ∈ pre.getLast?, isWordChar c = false)
    (hpost : ∀ c ∈ post.head?, isWordChar c = false) :
    wbSearch p ((pre ++ p) ++ post) = true := by
  have hplen : 0 < p.length := List.length_pos.mpr hp
  have hwi : wordAt ((pre ++ p) ++ post) pre.length = true := by
    rw [wordAt]
    have hq : ((pre ++ p) ++ post).get? pre.length = p.head? := by
      rw [List.append_assoc, List.get?_append_right (le_refl pre.length),
        Nat.sub_self, List.get?_zero]
      cases p with
      | nil => exact absurd rfl hp
      | cons c cs => rfl
    rw [hq]
    cases hph : p.head? with
    | none =>
      cases p with
      | nil => exact absurd rfl hp
      | cons c cs => exact Option.noConfusion hph
    | some c =>
      show isWordChar c = true
      exact hfirst c hph
  have hwbefore : (decide (pre.length ≠ 0) &&
      wordAt ((pre ++ p) ++ post) (pre.length - 1)) = false := by
    cases hpre0 : pre with
    | nil => rfl
    | cons c0 cs0 =>
      rw [← hpre0]
      have hlen0 : pre.length ≠ 0 := by rw [hpre0]; simp
      have hql : ((pre ++ p) ++ post).get? (pre.length - 1) = pre.getLast? := by
        rw [List.append_assoc, List.get?_append (by omega),
          List.getLast?_eq_get?]
      rw [wordAt, hql]
      obtain ⟨c, hc⟩ : ∃ c, pre.getLast? = some c := by
        rw [hpre0]
        exact ⟨(c0 :: cs0).getLast (by simp),
          List.getLast?_eq_getLast_of_ne_nil (by simp)⟩
      rw [hc]
      show (decide (pre.length ≠ 0) && isWordChar c) = false
      rw [hpre c hc]
      simp
  have hwlast : wordAt ((pre ++ p) ++ post) (pre.length + p.length - 1) = true := by
    rw [wordAt]
    have hq : ((pre ++ p) ++ post).get? (pre.length + p.length - 1) = p.getLast? := by
      rw [List.get?_append (by rw [List.length_append]; omega),
        List.get?_append_right (by omega), List.getLast?_eq_get?]
      congr 1
      omega
    rw [hq]
    obtain ⟨c, hc⟩ : ∃ c, p.getLast? = some c :=
      ⟨p.getLast hp, List.getLast?_eq_getLast_of_ne_nil hp⟩
    rw [hc]
    show isWordChar c = true
    exact hlast c hc
  have hwafter : wordAt ((pre ++ p) ++ post) (pre.length + p.length) = false := by
    rw [wordAt]
    have hq : ((pre ++ p) ++ post).get? (pre.length + p.length) = post.head? := by
      rw [List.get?_append_right (by rw [List.length_append]),
        List.length_append, Nat.sub_self, List.get?_zero]
    rw [hq]
    cases hph : post.head? with
    | none => rfl
    | some c =>
      show isWordChar c = false
      exact hpost c hph
  rw [wbSearch, List.any_eq_true]
  refine ⟨pre.length, List.mem_range.mpr ?_, ?_⟩
  · simp only [List.length_append]
    omega
  · rw [wbMatchAt]
    simp only [Bool.and_eq_true]
    refine ⟨⟨?_, ?_⟩, ?_⟩
    · rw [List.append_assoc, List.drop_left]
      exact List.isPrefixOf_iff_prefix.mpr (List.prefix_append p post)
    · rw [boundaryAt, hwbefore, hwi]
      rfl
    · rw [boundaryAt]
      have h1 : decide (pre.length + p.length ≠ 0) = true := by
        rw [decide_eq_true_iff]
        omega
      rw [h1, hwafter, hwlast]
      rfl



theorem go_in_find_skills (pre post : String)
    (hpre : ∀ c ∈ pre.data.getLast?, isWordChar c = false)
    (hpost : ∀ c ∈ post.data.head?, isWordChar c = false) :
    "Go" ∈ find_skills ["go"] (pre ++ "go" ++ post) := by
  have hlow : (pre ++ "go" ++ post).data.map Char.toLower =
      (pre.data.map Char.toLower ++ "go".data) ++ post.data.map Char.toLower := by
    rw [String.data_append, String.data_append, List.map_append, List.map_append]
    rfl
  have hpre' : ∀ c ∈ (pre.data.map Char.toLower).getLast?, isWordChar c = false := by
    intro c hc
    rw [List.getLast?_map] at hc
    cases hmem : pre.data.getLast? with
    | none => rw [hmem] at hc; exact Option.noConfusion hc
    | some c0 =>
      rw [hmem] at hc
      have hx : c0.toLower = c := Option.some.inj hc
      have hc0 := hpre c0 hmem
      rw [← hx, toLower_eq_of_not_word c0 hc0]
      exact hc0
  have hpost' : ∀ c ∈ (post.data.map Char.toLower).head?, isWordChar c = false := by
    intro c hc
    rw [List.head?_map] at hc
    cases hmem : post.data.head? with
    | none => rw [hmem] at hc; exact Option.noConfusion hc
    | some c0 =>
      rw [hmem] at hc
      have hx : c0.toLower = c := Option.some.inj hc
      have hc0 := hpost c0 hmem
      rw [← hx, toLower_eq_of_not_word c0 hc0]
      exact hc0
  have hw : wbSearch "go".data ((pre ++ "go" ++ post).data.map Char.toLower) = true := by
    rw [hlow]
    exact wbSearch_delimited "go".data (pre.data.map Char.toLower)
      (post.data.map Char.toLower) (by decide)
      (by intro c hc; injection hc with h; subst h; decide)
      (by intro c hc; injection hc with h; subst h; decide)
      hpre' hpost'
  have hmem : "Go" ∈ ((["go"].filter fun skill => wbSearch skill.data
      ((pre ++ "go" ++ post).data.map Char.toLower)).map pyTitle).dedup := by
    rw [List.mem_dedup, List.mem_map]
    refine ⟨"go", ?_, rfl⟩
    rw [List.mem_filter]
    exact ⟨by simp, hw⟩
  have hfs : find_skills ["go"] (pre ++ "go" ++ post) =
      ((["go"].filter fun skill => wbSearch skill.data
        ((pre ++ "go" ++ post).data.map Char.toLower)).map pyTitle).dedup.insertionSort
          pyLe := rfl
  rw [hfs, List.mem_insertionSort]
  exact hmem

/-- C8: skill detection is whole-word and case-insensitive: with the
vocabulary entry "go" (the loader lowercases "Go"), documents containing
only "Going" or "Algorithm" produce no skill match in either parser,
while any document containing "go" delimited by non-word characters (or
the document edges) produces the match "Go" in both parsers. -/
theorem whole_word_matching :
    (parse_resume ["go"] "Going").skills = [] ∧
    (parse_resume ["go"] "Algorithm").skills = [] ∧
    (parse_job_description ["go"] "Going").skills_required = [] ∧
    (parse_job_description ["go"] "Algorithm").skills_required = [] ∧
    ∀ pre post : String,
      (∀ c ∈ pre.data.getLast?, isWordChar c = false) →
      (∀ c ∈ post.data.head?, isWordChar c = false) →
      "Go" ∈ (parse_resume ["go"] (pre ++ "go" ++ post)).skills ∧
      "Go" ∈ (parse_job_description ["go"] (pre ++ "go" ++ post)).skills_required := by
  refine ⟨by decide, by decide, by decide, by decide, ?_⟩
  intro pre post hpre hpost
  have h := go_in_find_skills pre post hpre hpost
  exact ⟨h, h⟩

theorem whole_word_matching_witness :
    "Go" ∈ (parse_resume ["go"] (" " ++ "go" ++ "!")).skills ∧
    "Go" ∈ (parse_job_description ["go"] (" " ++ "go" ++ "!")).skills_required :=
  whole_word_matching.2.2.2.2 " " "!"
    (by intro c hc; injection hc with h; subst h; decide)
    (by intro c hc; injection hc with h; subst h; decide)

end ResumePortal
